import Mathlib

/-!
Shallow embedding of the transaction aggregation and reporting engine of the
hledger-reflex-app repository (src/hledger_reflex_app/state.py, with the
duplicated variant in src/ipay_app/ipay_app.py), together with proofs of the
behavioural properties claimed for it.

Python strings are modelled as Lean `String` (a list of unicode code points,
matching Python's string model); Python `list` as Lean `List`; Python `int`
as `Int` (arbitrary precision, as in Python); Python dicts, which preserve
insertion order, as insertion-ordered association lists; Python's stable
`list.sort` / `sorted` as Mathlib's stable `List.insertionSort` (any two
stable sorts by the same total preorder agree, so this is behaviourally the
Python sort); `float` quantities from the JSON payload as `Rat` with
truncation toward zero for Python's `int()`.
-/

namespace HledgerApp

/-- Python `str.lower()` (ASCII case folding, which is all the app's account
prefixes exercise). -/
def pyLower (s : String) : String :=
  String.mk (s.data.map Char.toLower)

/-- `pre` is a prefix of `l` (character lists). Models Python `str.startswith`
after both sides are fixed strings. -/
def listIsPre : List Char → List Char → Bool
  | [], _ => true
  | _ :: _, [] => false
  | a :: as, b :: bs => a == b && listIsPre as bs

/-- Lexicographic code-point comparison of character lists: Python `s1 <= s2`
restricted to the arguments' characters. -/
def charListLe : List Char → List Char → Bool
  | [], _ => true
  | _ :: _, [] => false
  | a :: as, b :: bs => if a = b then charListLe as bs else decide (a < b)

/-- Strict lexicographic code-point comparison: Python `s1 < s2`. -/
def charListLt : List Char → List Char → Bool
  | [], [] => false
  | [], _ :: _ => true
  | _ :: _, [] => false
  | a :: as, b :: bs => if a = b then charListLt as bs else decide (a < b)

/-- Python string `<=` (code-point lexicographic), used by `sorted(...)`. -/
def pyStrLe (a b : String) : Prop :=
  charListLe a.data b.data = true

/-- Python string `<` (code-point lexicographic). -/
def pyStrLt (a b : String) : Prop :=
  charListLt a.data b.data = true

instance : DecidableRel pyStrLe := fun _ _ =>
  inferInstanceAs (Decidable (_ = true))

instance : DecidableRel pyStrLt := fun _ _ =>
  inferInstanceAs (Decidable (_ = true))

/-- Python slicing `s[i:j]` for `0 ≤ i ≤ j` (clamps at the end of the string). -/
def pySlice (s : String) (i j : Nat) : String :=
  String.mk ((s.data.drop i).take (j - i))

/-- Python `s.split(sep)` for a one-character separator, on character lists.
`"".split(":") == [""]`, so the result is always non-empty. -/
def pySplitCh (sep : Char) : List Char → List (List Char)
  | [] => [[]]
  | c :: cs =>
    if c = sep then [] :: pySplitCh sep cs
    else
      match pySplitCh sep cs with
      | [] => [[c]]
      | p :: ps => (c :: p) :: ps

/-- Python `sep.join(parts)` for a one-character separator, on character lists. -/
def pyJoinCh (sep : Char) : List (List Char) → List Char
  | [] => []
  | [p] => p
  | p :: ps => p ++ sep :: pyJoinCh sep ps

/-- Python `account.split(":")` (state.py line 198). -/
def splitColon (s : String) : List String :=
  (pySplitCh ':' s.data).map String.mk

/-- Python `":".join(parts)` (state.py line 200). -/
def joinColon (ps : List String) : String :=
  String.mk (pyJoinCh ':' (ps.map String.data))

/-!  ## Normalized data model (state.py lines 14-66) -/

/-- The fixed 23-entry named-color palette (state.py lines 21-45). -/
def palette : List String :=
  ["tomato", "red", "crimson", "ruby", "pink", "orange", "amber", "gold",
   "bronze", "brown", "lime", "grass", "green", "olive", "mint", "teal",
   "cyan", "sky", "blue", "indigo", "violet", "purple", "plum"]

/-- `PostingData` (state.py lines 14-19). -/
structure PostingData where
  account : String
  amounts : List String
  amounts_display : String
  amounts_numeric : List Int
  commodity : String
deriving DecidableEq, Repr

/-- `TransactionData` (state.py lines 60-65). -/
structure TransactionData where
  index : Int
  date : String
  description : String
  postings : List PostingData
  posting_count : Nat
deriving DecidableEq, Repr

/-- `AccountBalanceData` (state.py lines 68-71). -/
structure AccountBalanceData where
  name : String
  balance : Int
  commodity : String
deriving DecidableEq, Repr

/-!  ## Raw API data model (hledger_api.py lines 37-62, after pydantic
validation and `model_dump(mode="json")`) -/

/-- The nested `aquantity` value of a raw amount.  `fp q` models a JSON object
whose `floatingPoint` entry is a number `q` (on which `int(...)` succeeds);
`malformed` models any value on which `qty_val.get("floatingPoint")` or the
subsequent `int(...)` raises (wrong shape, missing key, unparsable value). -/
inductive RawQtyField where
  | fp (q : Rat)
  | malformed
deriving DecidableEq, Repr

/-- A raw amount object (`acommodity`, `aquantity`), hledger_api.py lines 37-46. -/
structure RawAmount where
  aquantity : Option RawQtyField
  acommodity : Option String
deriving DecidableEq, Repr

/-- A raw posting (`paccount`, `pamount`), hledger_api.py lines 49-52. -/
structure RawPosting where
  paccount : String
  pamount : Option (List RawAmount)
deriving DecidableEq, Repr

/-- A raw transaction as dumped by the validated pydantic model
(hledger_api.py lines 55-62): `tindex`, `tdate` (ISO string), `tdescription`,
`tpostings` are always present. -/
structure RawTransaction where
  tindex : Int
  tdate : String
  tdescription : String
  tpostings : List RawPosting
deriving DecidableEq, Repr

/-- The kinds of failure the loader boundary can see: httpx transport errors
(connection refused, timeout), non-2xx statuses raised by
`raise_for_status`, and undecodable/invalid response bodies
(hledger_api.py lines 143-158 plus pydantic validation). -/
inductive ApiFailure where
  | connectionRefused
  | timeout
  | httpStatus (code : Nat)
  | decodeFailure
deriving DecidableEq, Repr

/-!  ## Posting Normalizer (state.py lines 258-285) -/

/-- Python `int()` applied to a JSON number: truncation toward zero. -/
def ratTruncZ (q : Rat) : Int :=
  Int.tdiv q.num (q.den : Int)

/-- `try: qty = int(qty_val.get("floatingPoint")) except Exception: qty = 0`
(state.py lines 263-267): the numeric quantity of a raw amount, failing soft
to zero. -/
def qtyOf (a : RawAmount) : Int :=
  match a.aquantity with
  | some (.fp q) => ratTruncZ q
  | _ => 0

/-- `comm = a.get("acommodity") or ""` (state.py line 268). -/
def commOf (a : RawAmount) : String :=
  match a.acommodity with
  | some c => c
  | none => ""

/-- Decimal digit characters of `n`, most significant first. -/
def natDigits (n : Nat) : List Char :=
  (Nat.toDigits 10 n)

/-- Insert `','` after every third character, walking a reversed digit list
(`k` counts the digits already placed in the current group). -/
def commasRev : List Char → Nat → List Char
  | [], _ => []
  | c :: cs, k =>
    if k = 3 then ',' :: commasRev (c :: cs) 0
    else c :: commasRev cs (k + 1)

/-- Python `f"{qty:,}"`: decimal rendering with thousands separators
(state.py line 271). -/
def fmtQty (n : Int) : String :=
  let ds := natDigits n.natAbs
  let grouped := (commasRev ds.reverse 0).reverse
  String.mk (if n < 0 then '-' :: grouped else grouped)

/-- The formatted display entry for one raw amount:
`formatted = f"{qty:,}"` plus `" " + comm` when the commodity is non-empty
(state.py lines 271-273). -/
def fmtOf (a : RawAmount) : String :=
  fmtQty (qtyOf a) ++ (if commOf a ≠ "" then " " ++ commOf a else "")

/-- One iteration of the per-amount loop (state.py lines 262-275): appends the
formatted entry and the numeric quantity, and keeps the first non-empty
commodity (`if comm and not commodity`). -/
def normStep (acc : List String × List Int × String) (a : RawAmount) :
    List String × List Int × String :=
  let comm := commOf a
  let commodity := if comm ≠ "" ∧ acc.2.2 = "" then comm else acc.2.2
  (acc.1 ++ [fmtOf a], acc.2.1 ++ [qtyOf a], commodity)

/-- The Posting Normalizer (state.py lines 257-285): runs the per-amount loop
over `p.get("pamount", []) or []` and assembles the `PostingData`. -/
def normalizePosting (p : RawPosting) : PostingData :=
  let acc := (p.pamount.getD []).foldl normStep ([], [], "")
  { account := p.paccount
    amounts := acc.1
    amounts_display := if acc.1 = [] then "" else String.intercalate ", " acc.1
    amounts_numeric := acc.2.1
    commodity := acc.2.2 }

/-- Builds one `TransactionData` from a raw transaction
(state.py lines 286-294). -/
def simplifyTxn (t : RawTransaction) : TransactionData :=
  let ps := t.tpostings.map normalizePosting
  { index := t.tindex
    date := t.tdate
    description := t.tdescription
    postings := ps
    posting_count := ps.length }

/-!  ## Transaction Loader (state.py lines 241-296) -/

/-- Descending-by-`index` ordering used by
`simplified.sort(key=lambda tx: tx.index, reverse=True)`. -/
def txLe (a b : TransactionData) : Prop :=
  b.index ≤ a.index

instance : DecidableRel txLe := fun _ _ => inferInstanceAs (Decidable (_ ≤ _))

instance : IsTotal TransactionData txLe :=
  ⟨fun a b => (le_total b.index a.index).elim Or.inl Or.inr⟩

instance : IsTrans TransactionData txLe :=
  ⟨fun _ _ _ h1 h2 => le_trans h2 h1⟩

/-- The success path of the loader: normalize every posting of every raw
transaction, then stable-sort descending by `tindex`
(state.py lines 255-295). -/
def loadTransactionsOk (raw : List RawTransaction) : List TransactionData :=
  List.insertionSort txLe (raw.map simplifyTxn)

/-- `load_transactions` as a function of the API call's outcome
(state.py lines 247-296): `raw_txns` stays `[]` when `get_transactions`
raises (`except Exception: pass`), so every failure kind degrades to the
empty transaction list. -/
def loadTransactions (r : Except ApiFailure (List RawTransaction)) :
    List TransactionData :=
  loadTransactionsOk (match r with
    | .ok l => l
    | .error _ => [])

/-!  ## Insertion-ordered association lists (Python `dict` / `defaultdict`) -/

/-- `d[k] = upd(d.get(k, dflt))` on an insertion-ordered association list:
updates the first binding of `k` in place, or appends a new binding at the
end — exactly a Python `defaultdict` write. -/
def alUpd {β : Type} (upd : β → β) (dflt : β) :
    List (String × β) → String → List (String × β)
  | [], k => [(k, upd dflt)]
  | (k0, v0) :: rest, k =>
    if k0 = k then (k0, upd v0) :: rest else (k0, v0) :: alUpd upd dflt rest k

/-- `balances[group_key] += v` on a `defaultdict(int)`. -/
def alAdd (l : List (String × Int)) (k : String) (v : Int) :
    List (String × Int) :=
  alUpd (· + v) 0 l k

/-- `if group_key not in commodities: commodities[group_key] = v`
(the write happens only when the key is absent, so it appends). -/
def alPut (l : List (String × String)) (k v : String) :
    List (String × String) :=
  if (l.lookup k).isSome then l else l ++ [(k, v)]

/-- `d.get(k, 0)` on a `defaultdict(int)` snapshot. -/
def alGet (l : List (String × Int)) (k : String) : Int :=
  (l.lookup k).getD 0

/-!  ## Balance Aggregator (state.py lines 175-239; identical in
ipay_app/ipay_app.py lines 143-175) -/

/-- `acct_lower.startswith(root_prefix)` where `acct_lower = p.account.lower()`
(state.py lines 188-189). -/
def isUnder (root : String) (acct : String) : Bool :=
  listIsPre root.data (pyLower acct).data

/-- `sum(p.amounts_numeric) if p.amounts_numeric else 0.0`, then
`int(...)` — the int() always succeeds on an int sum
(state.py lines 191-197). -/
def postingTotal (p : PostingData) : Int :=
  if p.amounts_numeric = [] then 0 else p.amounts_numeric.foldl (· + ·) 0

/-- The group key: `":".join(parts[:nested_level]) if nested_level <=
len(parts) else p.account` with `parts = p.account.split(":")`
(state.py lines 198-203). -/
def groupKey (acct : String) (n : Nat) : String :=
  let parts := splitColon acct
  if n ≤ parts.length then joinColon (parts.take n) else acct

/-- Accumulator of `_aggregate_balances`: the `balances` defaultdict and the
`commodities` dict, both insertion-ordered. -/
structure AggAcc where
  balances : List (String × Int)
  commodities : List (String × String)
deriving DecidableEq, Repr

/-- The body of the posting loop of `_aggregate_balances`
(state.py lines 187-206). -/
def aggPostingStep (lvl : Nat) (root : String) (acc : AggAcc)
    (p : PostingData) : AggAcc :=
  if isUnder root p.account then
    let k := groupKey p.account lvl
    { balances := alAdd acc.balances k (postingTotal p)
      commodities :=
        if p.commodity ≠ "" then alPut acc.commodities k p.commodity
        else acc.commodities }
  else acc

/-- The body of the transaction loop of `_aggregate_balances`
(state.py lines 180-206), including the month filter. -/
def aggTxnStep (selMonth : String) (lvl : Nat) (root : String)
    (applyMonth : Bool) (acc : AggAcc) (tx : TransactionData) : AggAcc :=
  if applyMonth && (selMonth ≠ "" : Bool) && (pySlice tx.date 5 7 ≠ selMonth : Bool) then
    acc
  else
    tx.postings.foldl (aggPostingStep lvl root) acc

/-- `_aggregate_balances(root_prefix, apply_month)` (state.py lines 175-207):
iterates `reversed(self.transactions)`, then returns
`\x7bk: (balances[k], commodities.get(k) or "") for k in balances\x7d` in the
balances dict's insertion order. -/
def aggregateBalances (txs : List TransactionData) (selMonth : String)
    (lvl : Nat) (root : String) (applyMonth : Bool) :
    List (String × Int × String) :=
  let acc := txs.reverse.foldl (aggTxnStep selMonth lvl root applyMonth)
    ⟨[], []⟩
  acc.balances.map fun kv => (kv.1, kv.2, (acc.commodities.lookup kv.1).getD "")

/-- Ascending order by the Python key tuple `(-balance, name)` used by the
asset/liability/expense views (state.py lines 214, 222, 238). -/
def balKeyDesc (a b : String × Int × String) : Prop :=
  b.2.1 < a.2.1 ∨ (a.2.1 = b.2.1 ∧ pyStrLe a.1 b.1)

/-- Ascending order by the Python key tuple `(balance, name)` used by the
income view (state.py line 230). -/
def balKeyAsc (a b : String × Int × String) : Prop :=
  a.2.1 < b.2.1 ∨ (a.2.1 = b.2.1 ∧ pyStrLe a.1 b.1)

instance : DecidableRel balKeyDesc := fun a b => by
  unfold balKeyDesc; infer_instance

instance : DecidableRel balKeyAsc := fun a b => by
  unfold balKeyAsc; infer_instance

/-- `State.asset_balances` (state.py lines 209-215): no month filter, sorted
by `(-balance, name)`, sign unchanged. -/
def assetBalances (txs : List TransactionData) (selMonth : String)
    (lvl : Nat) : List AccountBalanceData :=
  (List.insertionSort balKeyDesc
      (aggregateBalances txs selMonth lvl "asset" false)).map
    fun kv => ⟨kv.1, kv.2.1, kv.2.2⟩

/-- `State.liability_balances` (state.py lines 217-223): no month filter,
sorted by `(-balance, name)`, sign unchanged. -/
def liabilityBalances (txs : List TransactionData) (selMonth : String)
    (lvl : Nat) : List AccountBalanceData :=
  (List.insertionSort balKeyDesc
      (aggregateBalances txs selMonth lvl "liability" false)).map
    fun kv => ⟨kv.1, kv.2.1, kv.2.2⟩

/-- `State.income_balances` (state.py lines 225-231): month filter applied,
sorted by `(balance, name)`, `balance=-v[0]` (sign flipped). -/
def incomeBalances (txs : List TransactionData) (selMonth : String)
    (lvl : Nat) : List AccountBalanceData :=
  (List.insertionSort balKeyAsc
      (aggregateBalances txs selMonth lvl "revenue" true)).map
    fun kv => ⟨kv.1, -kv.2.1, kv.2.2⟩

/-- `State.expense_balances` (state.py lines 233-239): month filter applied,
sorted by `(-balance, name)`, `balance=-v[0]` (sign flipped). -/
def expenseBalances (txs : List TransactionData) (selMonth : String)
    (lvl : Nat) : List AccountBalanceData :=
  (List.insertionSort balKeyDesc
      (aggregateBalances txs selMonth lvl "expense" true)).map
    fun kv => ⟨kv.1, -kv.2.1, kv.2.2⟩

/-- `State.income_balances` of the ipay_app variant
(ipay_app.py lines 193-199): same aggregation and sort key
`(-balance, name)`, but `balance=v[0]` — the sign is NOT flipped. -/
def ipayIncomeBalances (txs : List TransactionData) (selMonth : String)
    (lvl : Nat) : List AccountBalanceData :=
  (List.insertionSort balKeyDesc
      (aggregateBalances txs selMonth lvl "revenue" true)).map
    fun kv => ⟨kv.1, kv.2.1, kv.2.2⟩

/-- `State.expense_balances` of the ipay_app variant
(ipay_app.py lines 201-207): `balance=v[0]` — the sign is NOT flipped. -/
def ipayExpenseBalances (txs : List TransactionData) (selMonth : String)
    (lvl : Nat) : List AccountBalanceData :=
  (List.insertionSort balKeyDesc
      (aggregateBalances txs selMonth lvl "expense" true)).map
    fun kv => ⟨kv.1, kv.2.1, kv.2.2⟩

/-!  ## Category Time-Series Builder (state.py lines 335-350 and 440-521) -/

/-- The level-2 category key: `":".join(parts[:2]) if len(parts) >= 2 else
p.account` (state.py lines 344-348, 373-377, 461-465). -/
def level2Key (acct : String) : String :=
  let parts := splitColon acct
  if 2 ≤ parts.length then joinColon (parts.take 2) else acct

/-- The multiset of level-2 keys added to the `cats` set by
`expense_level2_categories` / `revenue_level2_categories`
(state.py lines 338-349, 404-415), before deduplication. -/
def catOccurrences (root : String) (txs : List TransactionData) :
    List String :=
  txs.foldl
    (fun acc tx =>
      tx.postings.foldl
        (fun acc2 p =>
          if isUnder root p.account then acc2 ++ [level2Key p.account]
          else acc2)
        acc)
    []

/-- `sorted(cats)` where `cats` is the set of observed level-2 keys
(state.py line 350): the ascending duplicate-free enumeration of the set. -/
def level2Categories (root : String) (txs : List TransactionData) :
    List String :=
  List.insertionSort pyStrLe (catOccurrences root txs).dedup

/-- `month_cat[month][key] += v` on the nested
`defaultdict(lambda: defaultdict(int))` (state.py line 466). -/
def mcAdd (mc : List (String × List (String × Int))) (m c : String)
    (v : Int) : List (String × List (String × Int)) :=
  alUpd (fun inner => alAdd inner c v) [] mc m

/-- `month_cat[month].get(cat, 0)` (state.py line 473). -/
def mcGet (mc : List (String × List (String × Int))) (m c : String) : Int :=
  alGet ((mc.lookup m).getD []) c

/-- The body of the posting loop of the monthly builder
(state.py lines 453-466). -/
def mcPostingStep (root m : String)
    (mc : List (String × List (String × Int))) (p : PostingData) :
    List (String × List (String × Int)) :=
  if isUnder root p.account then
    mcAdd mc m (level2Key p.account) (postingTotal p)
  else mc

/-- The body of the transaction loop of the monthly builder
(state.py lines 449-466): skips dates shorter than 7 characters, buckets by
`tx.date[:7]`. -/
def mcTxnStep (root : String) (mc : List (String × List (String × Int)))
    (tx : TransactionData) : List (String × List (String × Int)) :=
  if tx.date.length < 7 then mc
  else tx.postings.foldl (mcPostingStep root (pySlice tx.date 0 7)) mc

/-- The nested `month -> category -> signed amount` table of
`monthly_expense_stacked` / `monthly_revenue_stacked`
(state.py lines 448-466, 490-508). -/
def buildMonthCat (root : String) (txs : List TransactionData) :
    List (String × List (String × Int)) :=
  txs.foldl (mcTxnStep root) []

/-- One output row of the monthly stacked series: the `"month"` entry plus
one entry per category, in category order (state.py lines 471-477). -/
structure StackedRow where
  month : String
  cells : List (String × Int)
deriving DecidableEq, Repr

/-- `monthly_expense_stacked` / `monthly_revenue_stacked` parameterized by the
account root (the two bodies are identical up to the root and category list;
state.py lines 440-480 and 482-521): one row per key of `month_cat` in
ascending month order, each row zero-filling every observed category and
negating negative sums. -/
def monthlyStacked (root : String) (txs : List TransactionData) :
    List StackedRow :=
  let mc := buildMonthCat root txs
  let cats := level2Categories root txs
  (List.insertionSort pyStrLe (mc.map Prod.fst)).map fun m =>
    ⟨m, cats.map fun c =>
      (c, let v := mcGet mc m c; if v < 0 then -v else v)⟩

/-- `State.monthly_expense_stacked` (state.py lines 440-480). -/
def monthlyExpenseStacked (txs : List TransactionData) : List StackedRow :=
  monthlyStacked "expense" txs

/-- `State.monthly_revenue_stacked` (state.py lines 482-521). -/
def monthlyRevenueStacked (txs : List TransactionData) : List StackedRow :=
  monthlyStacked "revenue" txs

/-- Specification-side definition (for the refinement statement of the
time-series claim): the signed sum, over all transactions of month `m` with a
well-formed date and all their postings under `root` with level-2 key `c`, of
the posting totals.  Written directly as a sum, to be compared with the
dictionary-based table the code builds. -/
def monthCatSum (root : String) (txs : List TransactionData) (m c : String) :
    Int :=
  (txs.map fun tx =>
    if 7 ≤ tx.date.length ∧ pySlice tx.date 0 7 = m then
      (tx.postings.map fun p =>
        if isUnder root p.account ∧ level2Key p.account = c then
          postingTotal p
        else 0).sum
    else 0).sum

/-!  ## SHA-256 (hashlib.sha256) and the category color call sites

A full embedding of SHA-256 over byte lists, with 32-bit words as `Nat`
reduced mod `2^32`.  `int(h, 16)` of the hex digest equals the big-endian
number of the 32 digest bytes, which is how `digestNat` reads it off. -/

/-- `2^32`. -/
def m32 : Nat := 4294967296

/-- Right rotation of a 32-bit word by `n` places. -/
def rotr32 (n x : Nat) : Nat :=
  (x / 2 ^ n + x % 2 ^ n * 2 ^ (32 - n)) % m32

/-- SHA-256 small sigma 0. -/
def ssig0 (x : Nat) : Nat := rotr32 7 x ^^^ rotr32 18 x ^^^ x / 2 ^ 3

/-- SHA-256 small sigma 1. -/
def ssig1 (x : Nat) : Nat := rotr32 17 x ^^^ rotr32 19 x ^^^ x / 2 ^ 10

/-- SHA-256 big sigma 0. -/
def bsig0 (x : Nat) : Nat := rotr32 2 x ^^^ rotr32 13 x ^^^ rotr32 22 x

/-- SHA-256 big sigma 1. -/
def bsig1 (x : Nat) : Nat := rotr32 6 x ^^^ rotr32 11 x ^^^ rotr32 25 x

/-- SHA-256 choice function. -/
def shaCh (e f g : Nat) : Nat := e &&& f ^^^ (e ^^^ (m32 - 1)) &&& g

/-- SHA-256 majority function. -/
def shaMaj (a b c : Nat) : Nat := a &&& b ^^^ a &&& c ^^^ b &&& c

/-- The 64 SHA-256 round constants (decimal rendering of the FIPS 180-4
table). -/
def shaK : List Nat :=
  [1116352408, 1899447441, 3049323471, 3921009573, 961987163,
   1508970993, 2453635748, 2870763221, 3624381080, 310598401,
   607225278, 1426881987, 1925078388, 2162078206, 2614888103,
   3248222580, 3835390401, 4022224774, 264347078, 604807628,
   770255983, 1249150122, 1555081692, 1996064986, 2554220882,
   2821834349, 2952996808, 3210313671, 3336571891, 3584528711,
   113926993, 338241895, 666307205, 773529912, 1294757372,
   1396182291, 1695183700, 1986661051, 2177026350, 2456956037,
   2730485921, 2820302411, 3259730800, 3345764771, 3516065817,
   3600352804, 4094571909, 275423344, 430227734, 506948616,
   659060556, 883997877, 958139571, 1322822218, 1537002063,
   1747873779, 1955562222, 2024104815, 2227730452, 2361852424,
   2428436474, 2756734187, 3204031479, 3329325298]

/-- The SHA-256 initial hash value (decimal rendering of the FIPS 180-4
table). -/
def shaH0 : List Nat :=
  [1779033703, 3144134277, 1013904242,
   2773480762, 1359893119, 2600822924,
   528734635, 1541459225]

/-- `k`-byte big-endian rendering of `n`. -/
def beBytes : Nat → Nat → List Nat
  | 0, _ => []
  | k + 1, n => beBytes k (n / 256) ++ [n % 256]

/-- SHA-256 padding: append `0x80`, zeros to 56 mod 64, and the 8-byte
big-endian bit length. -/
def shaPad (msg : List Nat) : List Nat :=
  msg ++ 0x80 :: List.replicate ((119 - msg.length % 64) % 64) 0
    ++ beBytes 8 (8 * msg.length)

/-- Big-endian word from a list of bytes. -/
def beWord (l : List Nat) : Nat := l.foldl (fun a b => a * 256 + b) 0

/-- Fuelled 4-byte chunking of a byte list into big-endian 32-bit words. -/
def toWordsF : Nat → List Nat → List Nat
  | 0, _ => []
  | _ + 1, [] => []
  | f + 1, l => beWord (l.take 4) :: toWordsF f (l.drop 4)

/-- Fuelled 64-byte chunking of the padded message into blocks. -/
def toBlocksF : Nat → List Nat → List (List Nat)
  | 0, _ => []
  | _ + 1, [] => []
  | f + 1, l => l.take 64 :: toBlocksF f (l.drop 64)

/-- The 64-word SHA-256 message schedule of one block. -/
def shaSchedule (block : List Nat) : List Nat :=
  (List.range 48).foldl
    (fun w i =>
      w ++ [(ssig1 (w.getD (i + 14) 0) + w.getD (i + 9) 0
        + ssig0 (w.getD (i + 1) 0) + w.getD i 0) % m32])
    (toWordsF block.length block)

/-- One SHA-256 compression round on the 8-word working state. -/
def shaRound (w : List Nat) (st : List Nat) (t : Nat) : List Nat :=
  let a := st.getD 0 0
  let b := st.getD 1 0
  let c := st.getD 2 0
  let d := st.getD 3 0
  let e := st.getD 4 0
  let f := st.getD 5 0
  let g := st.getD 6 0
  let h := st.getD 7 0
  let t1 := (h + bsig1 e + shaCh e f g + shaK.getD t 0 + w.getD t 0) % m32
  let t2 := (bsig0 a + shaMaj a b c) % m32
  [(t1 + t2) % m32, a, b, c, (d + t1) % m32, e, f, g]

/-- SHA-256 compression of one block into the running hash. -/
def shaCompress (hs : List Nat) (block : List Nat) : List Nat :=
  let w := shaSchedule block
  let st := (List.range 64).foldl (shaRound w) hs
  List.zipWith (fun x y => (x + y) % m32) hs st

/-- SHA-256 of a byte list, as the list of the 8 digest words. -/
def sha256Words (msg : List Nat) : List Nat :=
  let padded := shaPad msg
  (toBlocksF padded.length padded).foldl shaCompress shaH0

/-- `int(h, 16)` where `h` is the hex digest: the big-endian number of the
digest words. -/
def digestNat (msg : List Nat) : Nat :=
  (sha256Words msg).foldl (fun a w => a * m32 + w) 0

/-- UTF-8 encoding of one code point (Python `str.encode()`). -/
def utf8Char (c : Char) : List Nat :=
  let n := c.toNat
  if n < 0x80 then [n]
  else if n < 0x800 then [0xC0 + n / 64, 0x80 + n % 64]
  else if n < 0x10000 then
    [0xE0 + n / 4096, 0x80 + n / 64 % 64, 0x80 + n % 64]
  else
    [0xF0 + n / 262144, 0x80 + n / 4096 % 64, 0x80 + n / 64 % 64,
     0x80 + n % 64]

/-- UTF-8 bytes of a string (Python `key.encode()`). -/
def utf8Bytes (s : String) : List Nat :=
  (s.data.map utf8Char).flatten

/-- `PostingData.account_color` (state.py lines 47-52):
`palette[int(sha256(self.account.lower().encode()).hexdigest(), 16)
% len(palette)]`. -/
def postingAccountColor (acct : String) : String :=
  palette.getD (digestNat (utf8Bytes (pyLower acct)) % palette.length) ""

/-- The color computed per category inside `expense_level2_data`
(state.py lines 389-392). -/
def expenseDataColor (cat : String) : String :=
  palette.getD (digestNat (utf8Bytes (pyLower cat)) % palette.length) ""

/-- The color computed per category inside `expense_level2_category_colors`
(state.py lines 423-426). -/
def expenseCatColor (cat : String) : String :=
  palette.getD (digestNat (utf8Bytes (pyLower cat)) % palette.length) ""

/-- The color computed per category inside `revenue_level2_category_colors`
(state.py lines 433-437). -/
def revenueCatColor (cat : String) : String :=
  palette.getD (digestNat (utf8Bytes (pyLower cat)) % palette.length) ""

/-- `State.expense_level2_category_colors` (state.py lines 418-427). -/
def expenseLevel2CategoryColors (txs : List TransactionData) :
    List (String × String) :=
  (level2Categories "expense" txs).map fun cat => (cat, expenseCatColor cat)

/-- `State.revenue_level2_category_colors` (state.py lines 429-438). -/
def revenueLevel2CategoryColors (txs : List TransactionData) :
    List (String × String) :=
  (level2Categories "revenue" txs).map fun cat => (cat, revenueCatColor cat)

/-!  ## `set_nested_level` (state.py lines 121-126) -/

/-- Value of an ASCII decimal digit. -/
def digitVal (c : Char) : Option Nat :=
  if c.isDigit then some (c.toNat - 48) else none

/-- Digits after the first: Python's integer-literal tail
`("_"? digit)*` — a single underscore may separate digits. -/
def parseDigitTail (acc : Nat) : List Char → Option Nat
  | [] => some acc
  | c :: cs =>
    if c = '_' then
      match cs with
      | c2 :: cs2 =>
        match digitVal c2 with
        | some d => parseDigitTail (acc * 10 + d) cs2
        | none => none
      | [] => none
    else
      match digitVal c with
      | some d => parseDigitTail (acc * 10 + d) cs
      | none => none

/-- A non-empty unsigned decimal literal. -/
def parseUnsigned : List Char → Option Nat
  | [] => none
  | c :: cs =>
    match digitVal c with
    | some d => parseDigitTail d cs
    | none => none

/-- Python `int(level)` on a string: surrounding whitespace stripped, optional
sign, non-empty digit run (underscores allowed between digits); `none` models
the `ValueError` path. -/
def pyParseInt (s : String) : Option Int :=
  let l := (s.data.dropWhile Char.isWhitespace).reverse.dropWhile
    Char.isWhitespace |>.reverse
  match l with
  | '+' :: rest => (parseUnsigned rest).map fun n => (n : Int)
  | '-' :: rest => (parseUnsigned rest).map fun n => -(n : Int)
  | rest => (parseUnsigned rest).map fun n => (n : Int)

/-- `set_nested_level` (state.py lines 121-126): the value stored in
`self.nested_level` — `max(1, min(10, int(level)))`, or `1` on
`ValueError`. -/
def setNestedLevel (level : String) : Int :=
  match pyParseInt level with
  | some n => max 1 (min 10 n)
  | none => 1

/-!  ## Auxiliary definitions used in the theorem statements -/

/-- `true` iff the `aquantity` field is absent or malformed, i.e. exactly when
`int(qty_val.get("floatingPoint"))` raises in the normalizer. -/
def qtyBad (a : RawAmount) : Bool :=
  match a.aquantity with
  | some (.fp _) => false
  | _ => true

/-- First-wins commodity accumulator of the per-amount loop
(state.py lines 269-270), split out for the fold lemmas. -/
def commStep (c : String) (a : RawAmount) : String :=
  if commOf a ≠ "" ∧ c = "" then commOf a else c

/-- The worked example of the spec's testable properties: two asset postings,
`Asset:Bank:Checking` +100 and `Asset:Cash` +20. -/
def exampleAssetTxs : List TransactionData :=
  [⟨1, "2025-01-15", "opening",
    [⟨"Asset:Bank:Checking", [], "", [100], ""⟩,
     ⟨"Asset:Cash", [], "", [20], ""⟩], 2⟩]

/-- A revenue transaction with raw aggregated sum `-5000` for group
`Revenue:Salary`. -/
def exampleRevTxs : List TransactionData :=
  [⟨1, "2025-01-15", "salary",
    [⟨"Revenue:Salary", [], "", [-5000], ""⟩], 1⟩]

/-- Two raw transactions with distinct indices, out of order. -/
def exampleRawTxs : List RawTransaction :=
  [⟨1, "2025-01-01", "first", []⟩, ⟨2, "2025-01-02", "second", []⟩]

/-- A transaction with a 10-character date but no expense posting. -/
def exampleNoExpenseTxs : List TransactionData :=
  [⟨1, "2025-03-10", "transfer", [⟨"Asset:Cash", [], "", [50], ""⟩], 1⟩]

/-- The spec's `build_series` example: two expense transactions in different
months. -/
def exampleSeriesTxs : List TransactionData :=
  [⟨2, "2025-01-15", "groceries", [⟨"Expense:Food", [], "", [-50], ""⟩], 1⟩,
   ⟨1, "2025-02-10", "snacks", [⟨"Expense:Food", [], "", [-30], ""⟩], 1⟩]

/-- Keys of an association list. -/
def keysOf {β : Type} (l : List (String × β)) : List String :=
  l.map Prod.fst

/-!  ## Fold lemmas for the Posting Normalizer -/

theorem normStep_eq (acc : List String × List Int × String) (a : RawAmount) :
    normStep acc a = (acc.1 ++ [fmtOf a], acc.2.1 ++ [qtyOf a], commStep acc.2.2 a) := by
  rfl

theorem normFold (l : List RawAmount) :
    ∀ (al : List String) (an : List Int) (c0 : String),
      l.foldl normStep (al, an, c0)
        = (al ++ l.map fmtOf, an ++ l.map qtyOf, l.foldl commStep c0) := by
  induction l with
  | nil => intro al an c0; simp
  | cons a l ih =>
    intro al an c0
    simp only [List.foldl_cons, normStep_eq, List.map_cons, List.append_assoc]
    rw [ih]
    simp

theorem normalizePosting_amounts (p : RawPosting) :
    (normalizePosting p).amounts = (p.pamount.getD []).map fmtOf := by
  show ((p.pamount.getD []).foldl normStep ([], [], "")).1 = _
  rw [normFold]
  simp

theorem normalizePosting_numeric (p : RawPosting) :
    (normalizePosting p).amounts_numeric = (p.pamount.getD []).map qtyOf := by
  show ((p.pamount.getD []).foldl normStep ([], [], "")).2.1 = _
  rw [normFold]
  simp

theorem normalizePosting_display (p : RawPosting) :
    (normalizePosting p).amounts_display
      = String.intercalate ", " (normalizePosting p).amounts := by
  have h1 : ((p.pamount.getD []).foldl normStep ([], [], "")).1
      = (p.pamount.getD []).map fmtOf := by
    rw [normFold]; simp
  show (if ((p.pamount.getD []).foldl normStep ([], [], "")).1 = [] then ""
    else String.intercalate ", " ((p.pamount.getD []).foldl normStep ([], [], "")).1)
    = String.intercalate ", " (normalizePosting p).amounts
  rw [normalizePosting_amounts, h1]
  by_cases h : (p.pamount.getD []).map fmtOf = []
  · rw [if_pos h, h]; rfl
  · rw [if_neg h]

/-!  ## Claim theorems: error handling and the normalizer invariants -/

/-- C5: any failure of the transaction-listing call — transport error,
timeout, non-2xx status, or an undecodable body — makes `load_transactions`
produce the empty transaction list, with no distinction between failure
kinds surfaced.  (Modelled by the totality of `loadTransactions` over
`Except`: the `except Exception: pass` boundary leaves `raw_txns = []`.) -/
theorem c5_load_failure_empty (e e2 : ApiFailure) :
    loadTransactions (Except.error e) = []
      ∧ loadTransactions (Except.error e) = loadTransactions (Except.error e2) := by
  exact ⟨rfl, rfl⟩

/-- C6: an absent or malformed nested quantity yields numeric quantity 0 for
that amount only; normalization is total (never raises), every amount of the
posting keeps its own position and value, and every posting of the
transaction is still included. -/
theorem c6_malformed_qty_soft :
    (∀ a : RawAmount, qtyBad a = true → qtyOf a = 0)
      ∧ (∀ p : RawPosting,
          (normalizePosting p).amounts_numeric = (p.pamount.getD []).map qtyOf)
      ∧ (∀ t : RawTransaction,
          (simplifyTxn t).postings = t.tpostings.map normalizePosting) := by
  refine ⟨fun a h => ?_, normalizePosting_numeric, fun t => rfl⟩
  rcases a with ⟨aq, ac⟩
  match aq with
  | none => rfl
  | some .malformed => rfl
  | some (.fp q) => simp [qtyBad] at h

theorem c6_malformed_qty_soft_witness :
    qtyBad ⟨none, none⟩ = true ∧ qtyOf ⟨none, none⟩ = 0 :=
  ⟨rfl, c6_malformed_qty_soft.1 ⟨none, none⟩ rfl⟩

/-- C7: `amounts_numeric` and the entries joined into `amounts_display` have
equal length and are positionally derived from the same raw amount list. -/
theorem c7_amounts_aligned (p : RawPosting) :
    (normalizePosting p).amounts_numeric.length
        = (normalizePosting p).amounts.length
      ∧ (normalizePosting p).amounts_display
        = String.intercalate ", " (normalizePosting p).amounts
      ∧ (normalizePosting p).amounts_numeric = (p.pamount.getD []).map qtyOf
      ∧ (normalizePosting p).amounts = (p.pamount.getD []).map fmtOf := by
  refine ⟨?_, normalizePosting_display p, normalizePosting_numeric p,
    normalizePosting_amounts p⟩
  rw [normalizePosting_numeric, normalizePosting_amounts]
  simp

/-- C10: `set_nested_level` never raises, clamps parsable input into
`[1, 10]`, and falls back to 1 on unparsable input, so the invariant
`1 ≤ nested_level ≤ 10` holds after every call. -/
theorem c10_nested_level_invariant (s : String) :
    1 ≤ setNestedLevel s ∧ setNestedLevel s ≤ 10
      ∧ (∀ n : Int, pyParseInt s = some n → setNestedLevel s = max 1 (min 10 n))
      ∧ (pyParseInt s = none → setNestedLevel s = 1) := by
  cases h : pyParseInt s with
  | none =>
    refine ⟨?_, ?_, ?_, ?_⟩
    · simp [setNestedLevel, h]
    · simp [setNestedLevel, h]
    · intro n hn; exact absurd hn (by simp)
    · intro _; simp [setNestedLevel, h]
  | some n =>
    refine ⟨?_, ?_, ?_, ?_⟩
    · simp only [setNestedLevel, h]; exact le_max_left _ _
    · simp only [setNestedLevel, h]; exact max_le (by norm_num) (min_le_left _ _)
    · intro n2 hn2
      injection hn2 with e
      subst e
      simp only [setNestedLevel, h]
    · intro hn; exact absurd hn (by simp)

theorem c10_nested_level_invariant_witness :
    1 ≤ setNestedLevel "15" ∧ setNestedLevel "15" ≤ 10
      ∧ setNestedLevel "15" = max 1 (min 10 15) :=
  ⟨(c10_nested_level_invariant "15").1,
   (c10_nested_level_invariant "15").2.1,
   (c10_nested_level_invariant "15").2.2.1 15 (by decide)⟩

/-- C9: category-to-color assignment is the pure function
`palette[sha256(lowercase(x)) mod 23]` of the lower-cased string, computed
identically at all four call sites (`account_color`, `expense_level2_data`,
`expense_level2_category_colors`, `revenue_level2_category_colors`). -/
theorem c9_color_deterministic (s1 s2 : String)
    (h : pyLower s1 = pyLower s2) :
    palette.length = 23
      ∧ postingAccountColor s1
        = palette.getD (digestNat (utf8Bytes (pyLower s1)) % palette.length) ""
      ∧ postingAccountColor s1 = expenseDataColor s2
      ∧ postingAccountColor s1 = expenseCatColor s2
      ∧ postingAccountColor s1 = revenueCatColor s2
      ∧ expenseDataColor s1 = expenseCatColor s2
      ∧ expenseCatColor s1 = revenueCatColor s2 := by
  unfold postingAccountColor expenseDataColor expenseCatColor revenueCatColor
  rw [h]
  exact ⟨rfl, rfl, rfl, rfl, rfl, rfl, rfl⟩

theorem c9_color_deterministic_witness :
    pyLower "Expense:Food" = pyLower "expense:food"
      ∧ postingAccountColor "Expense:Food" = expenseCatColor "expense:food" :=
  ⟨by decide, (c9_color_deterministic "Expense:Food" "expense:food" (by decide)).2.2.2.1⟩

/-!  ## The loader's sort order (C1) -/

/-- C1: for every raw transaction list with pairwise-distinct `tindex` (the
spec's data-model invariant for lists returned by the ledger API, whose
`index` "uniquely identifies" a transaction), the loader's output is sorted
strictly descending by `index`. -/
theorem c1_loader_sorted_desc (raw : List RawTransaction)
    (h : (raw.map RawTransaction.tindex).Nodup) :
    (loadTransactions (Except.ok raw)).Pairwise
      (fun a b => b.index < a.index) := by
  show (List.insertionSort txLe (raw.map simplifyTxn)).Pairwise
    (fun a b => b.index < a.index)
  have hsorted : (List.insertionSort txLe (raw.map simplifyTxn)).Pairwise txLe :=
    List.sorted_insertionSort txLe (raw.map simplifyTxn)
  have hperm : (List.insertionSort txLe (raw.map simplifyTxn)).Perm
      (raw.map simplifyTxn) :=
    List.perm_insertionSort txLe (raw.map simplifyTxn)
  have hmapeq : (raw.map simplifyTxn).map TransactionData.index
      = raw.map RawTransaction.tindex := by
    rw [List.map_map]
    exact rfl
  have hnodup2 : ((raw.map simplifyTxn).map TransactionData.index).Nodup := by
    rw [hmapeq]; exact h
  have hnodup3 :
      ((List.insertionSort txLe (raw.map simplifyTxn)).map
        TransactionData.index).Nodup :=
    hnodup2.perm (hperm.map TransactionData.index).symm
  have hpne : (List.insertionSort txLe (raw.map simplifyTxn)).Pairwise
      (fun a b => a.index ≠ b.index) :=
    List.pairwise_map.mp hnodup3
  exact (hsorted.and hpne).imp
    (fun hab => lt_of_le_of_ne hab.1 hab.2.symm)

theorem c1_loader_sorted_desc_witness :
    (exampleRawTxs.map RawTransaction.tindex).Nodup
      ∧ (loadTransactions (Except.ok exampleRawTxs)).Pairwise
          (fun a b => b.index < a.index) :=
  ⟨by decide, c1_loader_sorted_desc exampleRawTxs (by decide)⟩

/-!  ## Split/join lemmas and the group-key claim (C4) -/

theorem pySplitCh_cons (sep : Char) (l : List Char) :
    ∃ p ps, pySplitCh sep l = p :: ps := by
  induction l with
  | nil => exact ⟨[], [], rfl⟩
  | cons c cs ih =>
    obtain ⟨p, ps, hp⟩ := ih
    by_cases h : c = sep
    · exact ⟨[], pySplitCh sep cs, by simp [pySplitCh, h]⟩
    · exact ⟨c :: p, ps, by simp [pySplitCh, h, hp]⟩

theorem mem_pySplitCh_not_sep (sep : Char) :
    ∀ (l : List Char) (p : List Char), p ∈ pySplitCh sep l → sep ∉ p := by
  intro l
  induction l with
  | nil =>
    intro p hp
    simp [pySplitCh] at hp
    subst hp
    simp
  | cons c cs ih =>
    intro p hp
    by_cases h : c = sep
    · simp only [pySplitCh, if_pos h] at hp
      rcases List.mem_cons.mp hp with hp1 | hp1
      · subst hp1; simp
      · exact ih p hp1
    · obtain ⟨q, qs, hq⟩ := pySplitCh_cons sep cs
      simp only [pySplitCh, if_neg h, hq] at hp
      rcases List.mem_cons.mp hp with hp1 | hp1
      · subst hp1
        intro hmem
        rcases List.mem_cons.mp hmem with he | hmem1
        · exact h he.symm
        · exact ih q (by rw [hq]; exact List.mem_cons_self q qs) hmem1
      · exact ih p (by rw [hq]; exact List.mem_cons_of_mem q hp1)

theorem pySplitCh_no_sep (sep : Char) :
    ∀ (p : List Char), sep ∉ p → pySplitCh sep p = [p]
  | [], _ => rfl
  | c :: cs, h => by
    have hc : ¬ c = sep := fun e => h (e ▸ List.mem_cons_self c cs)
    have hcs : sep ∉ cs := fun hm => h (List.mem_cons_of_mem c hm)
    simp [pySplitCh, hc, pySplitCh_no_sep sep cs hcs]

theorem pySplitCh_append_sep (sep : Char) (t : List Char) :
    ∀ (p : List Char), sep ∉ p →
      pySplitCh sep (p ++ sep :: t) = p :: pySplitCh sep t
  | [], _ => by simp [pySplitCh]
  | c :: cs, h => by
    have hc : ¬ c = sep := fun e => h (e ▸ List.mem_cons_self c cs)
    have hcs : sep ∉ cs := fun hm => h (List.mem_cons_of_mem c hm)
    have ih := pySplitCh_append_sep sep t cs hcs
    show pySplitCh sep ((c :: cs) ++ sep :: t) = (c :: cs) :: pySplitCh sep t
    simp only [List.cons_append, pySplitCh, if_neg hc, List.append_eq, ih]

theorem pySplitCh_pyJoinCh (sep : Char) :
    ∀ (ps : List (List Char)), ps ≠ [] → (∀ p ∈ ps, sep ∉ p) →
      pySplitCh sep (pyJoinCh sep ps) = ps
  | [], h, _ => absurd rfl h
  | [p], _, hall => by
    simp only [pyJoinCh]
    exact pySplitCh_no_sep sep p (hall p (List.mem_singleton.mpr rfl))
  | p :: q :: ps, _, hall => by
    show pySplitCh sep (p ++ sep :: pyJoinCh sep (q :: ps)) = p :: q :: ps
    rw [pySplitCh_append_sep sep (pyJoinCh sep (q :: ps)) p
      (hall p (List.mem_cons_self p (q :: ps)))]
    rw [pySplitCh_pyJoinCh sep (q :: ps) (by simp)
      (fun r hr => hall r (List.mem_cons_of_mem p hr))]

/-- C4: for every account path and nesting depth `N ≥ 1`, the group key is
the join of the first `N` colon-delimited segments when the path has at
least `N` segments, the full path otherwise, and in either case the group
key has at most `N` colon-delimited segments. -/
theorem c4_group_key (acct : String) (n : Nat) (hn : 1 ≤ n) :
    (n ≤ (splitColon acct).length →
      groupKey acct n = joinColon ((splitColon acct).take n))
      ∧ ((splitColon acct).length < n → groupKey acct n = acct)
      ∧ (splitColon (groupKey acct n)).length ≤ n := by
  refine ⟨fun hle => by simp [groupKey, hle], fun hlt => by
    simp [groupKey, Nat.not_le.mpr hlt], ?_⟩
  by_cases hle : n ≤ (splitColon acct).length
  · have hgk : groupKey acct n = joinColon ((splitColon acct).take n) := by
      simp [groupKey, hle]
    rw [hgk]
    have hdata : ((splitColon acct).take n).map String.data
        = (pySplitCh ':' acct.data).take n := by
      show ((((pySplitCh ':' acct.data).map String.mk)).take n).map String.data
        = (pySplitCh ':' acct.data).take n
      rw [List.map_take, List.map_map]
      have : (String.data ∘ String.mk) = id := by funext l; rfl
      rw [this, List.map_id]
    have hlen : ((pySplitCh ':' acct.data).take n).length = n := by
      rw [List.length_take]
      have : n ≤ (pySplitCh ':' acct.data).length := by
        have := hle
        simpa [splitColon] using this
      omega
    have hne : (pySplitCh ':' acct.data).take n ≠ [] := by
      intro he
      rw [he] at hlen
      simp at hlen
      omega
    have hfree : ∀ p ∈ (pySplitCh ':' acct.data).take n, ':' ∉ p :=
      fun p hp => mem_pySplitCh_not_sep ':' acct.data p (List.mem_of_mem_take hp)
    show ((pySplitCh ':'
      (String.mk (pyJoinCh ':' (((splitColon acct).take n).map String.data))).data).map
        String.mk).length ≤ n
    rw [hdata]
    show ((pySplitCh ':' (pyJoinCh ':' ((pySplitCh ':' acct.data).take n))).map
      String.mk).length ≤ n
    rw [pySplitCh_pyJoinCh ':' _ hne hfree]
    rw [List.length_map]
    omega
  · have hgk : groupKey acct n = acct := by simp [groupKey, hle]
    rw [hgk]
    exact le_of_lt (Nat.lt_of_not_le hle)

theorem c4_group_key_witness :
    1 ≤ 2
      ∧ groupKey "Expense:Food:Groceries" 2
        = joinColon ((splitColon "Expense:Food:Groceries").take 2)
      ∧ (splitColon (groupKey "Expense:Food:Groceries" 2)).length ≤ 2 :=
  ⟨by decide,
   (c4_group_key "Expense:Food:Groceries" 2 (by decide)).1 (by decide),
   (c4_group_key "Expense:Food:Groceries" 2 (by decide)).2.2⟩

/-!  ## The month filter is skipped for asset/liability aggregation (C8) -/

theorem aggTxnStep_no_month (m1 m2 : String) (lvl : Nat) (root : String) :
    aggTxnStep m1 lvl root false = aggTxnStep m2 lvl root false := by
  funext acc tx
  simp [aggTxnStep]

/-- C8: `asset_balances` and `liability_balances` are identical for any two
values of `selected_month` (the month filter applies only to
revenue/expense aggregation), and the spec's concrete example holds:
aggregating prefix `asset` at depth 1 over `Asset:Bank:Checking` +100 and
`Asset:Cash` +20 yields the single group `Asset` with balance 120. -/
theorem c8_asset_liability_ignore_month :
    (∀ (txs : List TransactionData) (m1 m2 : String) (lvl : Nat),
        assetBalances txs m1 lvl = assetBalances txs m2 lvl
          ∧ liabilityBalances txs m1 lvl = liabilityBalances txs m2 lvl)
      ∧ aggregateBalances exampleAssetTxs "" 1 "asset" false
        = [("Asset", 120, "")] := by
  constructor
  · intro txs m1 m2 lvl
    have hagg : ∀ root : String,
        aggregateBalances txs m1 lvl root false
          = aggregateBalances txs m2 lvl root false := by
      intro root
      unfold aggregateBalances
      rw [aggTxnStep_no_month m1 m2 lvl root]
    exact ⟨by unfold assetBalances; rw [hagg],
      by unfold liabilityBalances; rw [hagg]⟩
  · decide

/-!  ## Association-list lemmas (Python dict semantics) -/

theorem foldl_inv {α β : Type} (P : β → Prop) (step : β → α → β)
    (hstep : ∀ b a, P b → P (step b a)) :
    ∀ (l : List α) (b : β), P b → P (l.foldl step b)
  | [], _, hb => hb
  | a :: l, b, hb => foldl_inv P step hstep l (step b a) (hstep b a hb)

theorem alUpd_keys {β : Type} (u : β → β) (d : β) :
    ∀ (l : List (String × β)) (k : String),
      keysOf (alUpd u d l k)
        = if k ∈ keysOf l then keysOf l else keysOf l ++ [k]
  | [], k => by simp [alUpd, keysOf]
  | (k0, v0) :: rest, k => by
    by_cases h : k0 = k
    · subst h
      simp [alUpd, keysOf]
    · have ih := alUpd_keys u d rest k
      simp only [alUpd, if_neg h]
      by_cases hk : k ∈ keysOf rest
      · have hmem : k ∈ keysOf ((k0, v0) :: rest) := by
          show k ∈ k0 :: keysOf rest
          exact List.mem_cons_of_mem k0 hk
        rw [if_pos hmem]
        show k0 :: keysOf (alUpd u d rest k) = keysOf ((k0, v0) :: rest)
        rw [ih, if_pos hk]
        rfl
      · have hmem : ¬ k ∈ keysOf ((k0, v0) :: rest) := by
          show ¬ k ∈ k0 :: keysOf rest
          intro hm
          rcases List.mem_cons.mp hm with e | hm1
          · exact h e.symm
          · exact hk hm1
        rw [if_neg hmem]
        show k0 :: keysOf (alUpd u d rest k)
          = keysOf ((k0, v0) :: rest) ++ [k]
        rw [ih, if_neg hk]
        rfl

theorem nodup_alUpd {β : Type} (u : β → β) (d : β) (l : List (String × β))
    (k : String) (h : (keysOf l).Nodup) : (keysOf (alUpd u d l k)).Nodup := by
  rw [alUpd_keys]
  by_cases hk : k ∈ keysOf l
  · rw [if_pos hk]; exact h
  · rw [if_neg hk]
    simp [List.nodup_append, h, hk]

theorem lookup_alUpd_self {β : Type} (u : β → β) (d : β) :
    ∀ (l : List (String × β)) (k : String),
      (alUpd u d l k).lookup k = some (u ((l.lookup k).getD d))
  | [], k => by simp [alUpd, List.lookup]
  | (k0, v0) :: rest, k => by
    by_cases h : k0 = k
    · subst h
      simp [alUpd, List.lookup]
    · have hbeq : (k == k0) = false := beq_eq_false_iff_ne.mpr fun e => h e.symm
      have ih := lookup_alUpd_self u d rest k
      simp [alUpd, if_neg h, List.lookup, hbeq, ih]

theorem lookup_of_mem_nodup {β : Type} :
    ∀ (l : List (String × β)), (keysOf l).Nodup →
      ∀ kv ∈ l, l.lookup kv.1 = some kv.2
  | [], _, kv, hm => absurd hm (List.not_mem_nil kv)
  | (k0, v0) :: rest, hnd, kv, hm => by
    have hnd' : (k0 :: keysOf rest).Nodup := hnd
    have hnd2 := List.nodup_cons.mp hnd'
    rcases List.mem_cons.mp hm with he | hm1
    · subst he
      simp [List.lookup]
    · have hne : kv.1 ≠ k0 := fun e =>
        hnd2.1 (e ▸ List.mem_map_of_mem Prod.fst hm1)
      have hbeq : (kv.1 == k0) = false := beq_eq_false_iff_ne.mpr hne
      simp only [List.lookup, hbeq]
      exact lookup_of_mem_nodup rest hnd2.2 kv hm1

/-!  ## Keys of the aggregation are duplicate-free -/

theorem aggAcc_nodup (m : String) (lvl : Nat) (root : String) (aM : Bool)
    (txs : List TransactionData) :
    (keysOf ((txs.foldl (aggTxnStep m lvl root aM) ⟨[], []⟩).balances)).Nodup := by
  apply foldl_inv (fun acc : AggAcc => (keysOf acc.balances).Nodup)
  · intro acc tx hacc
    unfold aggTxnStep
    by_cases hm : (aM && (m ≠ "" : Bool) && (pySlice tx.date 5 7 ≠ m : Bool)) = true
    · rw [if_pos hm]; exact hacc
    · rw [if_neg hm]
      apply foldl_inv (fun acc : AggAcc => (keysOf acc.balances).Nodup)
      · intro acc2 p hacc2
        unfold aggPostingStep
        by_cases hu : isUnder root p.account = true
        · rw [if_pos hu]
          exact nodup_alUpd _ _ _ _ hacc2
        · rw [if_neg hu]; exact hacc2
      · exact hacc
  · simp [keysOf]

theorem agg_output_nodup (txs : List TransactionData) (m : String) (lvl : Nat)
    (root : String) (aM : Bool) :
    (keysOf (aggregateBalances txs m lvl root aM)).Nodup := by
  unfold aggregateBalances
  have hk : ∀ (bl : List (String × Int)) (cm : List (String × String)),
      keysOf (bl.map fun kv => (kv.1, kv.2, (cm.lookup kv.1).getD ""))
        = keysOf bl := by
    intro bl cm
    simp only [keysOf, List.map_map]
    rfl
  rw [hk]
  exact aggAcc_nodup m lvl root aM txs.reverse

theorem mem_balance_view
    {r : (String × Int × String) → (String × Int × String) → Prop}
    [DecidableRel r] {g : (String × Int × String) → AccountBalanceData}
    {l : List (String × Int × String)} {b : AccountBalanceData}
    (hb : b ∈ (List.insertionSort r l).map g) : ∃ kv ∈ l, b = g kv := by
  rcases List.mem_map.mp hb with ⟨kv, hkv, he⟩
  exact ⟨kv, (List.mem_insertionSort r).mp hkv, he.symm⟩

theorem view_balance_lookup (txs : List TransactionData) (m : String)
    (lvl : Nat) (root : String) (aM : Bool) (kv : String × Int × String)
    (hkv : kv ∈ aggregateBalances txs m lvl root aM) :
    (aggregateBalances txs m lvl root aM).lookup kv.1 = some kv.2 :=
  lookup_of_mem_nodup _ (agg_output_nodup txs m lvl root aM) kv hkv

/-!  ## Display sign of the balance views (C2) -/

/-- C2 (amended): in the hledger_reflex_app variant, `income_balances` and
`expense_balances` expose the NEGATION of the raw aggregated sum of their
group while `asset_balances` and `liability_balances` expose the raw sum
unchanged; in the ipay_app variant, all four views (here the two differing
ones) expose the raw sum unchanged — its income/expense balances are not
negated. -/
theorem c2_amended_display_signs (txs : List TransactionData) (m : String)
    (lvl : Nat) :
    (∀ b ∈ incomeBalances txs m lvl,
        (aggregateBalances txs m lvl "revenue" true).lookup b.name
          = some (-b.balance, b.commodity))
      ∧ (∀ b ∈ expenseBalances txs m lvl,
          (aggregateBalances txs m lvl "expense" true).lookup b.name
            = some (-b.balance, b.commodity))
      ∧ (∀ b ∈ assetBalances txs m lvl,
          (aggregateBalances txs m lvl "asset" false).lookup b.name
            = some (b.balance, b.commodity))
      ∧ (∀ b ∈ liabilityBalances txs m lvl,
          (aggregateBalances txs m lvl "liability" false).lookup b.name
            = some (b.balance, b.commodity))
      ∧ (∀ b ∈ ipayIncomeBalances txs m lvl,
          (aggregateBalances txs m lvl "revenue" true).lookup b.name
            = some (b.balance, b.commodity))
      ∧ (∀ b ∈ ipayExpenseBalances txs m lvl,
          (aggregateBalances txs m lvl "expense" true).lookup b.name
            = some (b.balance, b.commodity)) := by
  refine ⟨fun b hb => ?_, fun b hb => ?_, fun b hb => ?_, fun b hb => ?_,
    fun b hb => ?_, fun b hb => ?_⟩
  · rcases mem_balance_view hb with ⟨kv, hkv, rfl⟩
    have := view_balance_lookup txs m lvl "revenue" true kv hkv
    simpa using this
  · rcases mem_balance_view hb with ⟨kv, hkv, rfl⟩
    have := view_balance_lookup txs m lvl "expense" true kv hkv
    simpa using this
  · rcases mem_balance_view hb with ⟨kv, hkv, rfl⟩
    have := view_balance_lookup txs m lvl "asset" false kv hkv
    simpa using this
  · rcases mem_balance_view hb with ⟨kv, hkv, rfl⟩
    have := view_balance_lookup txs m lvl "liability" false kv hkv
    simpa using this
  · rcases mem_balance_view hb with ⟨kv, hkv, rfl⟩
    have := view_balance_lookup txs m lvl "revenue" true kv hkv
    simpa using this
  · rcases mem_balance_view hb with ⟨kv, hkv, rfl⟩
    have := view_balance_lookup txs m lvl "expense" true kv hkv
    simpa using this

theorem c2_amended_display_signs_witness :
    (⟨"Revenue:Salary", 5000, ""⟩ : AccountBalanceData)
        ∈ incomeBalances exampleRevTxs "" 3
      ∧ (aggregateBalances exampleRevTxs "" 3 "revenue" true).lookup
          "Revenue:Salary" = some (-5000, "") :=
  ⟨by decide,
   (c2_amended_display_signs exampleRevTxs "" 3).1
     ⟨"Revenue:Salary", 5000, ""⟩ (by decide)⟩

/-- C2 counterexample: on a revenue posting of −5000, the ipay_app variant's
`income_balances` exposes −5000, the raw aggregated sum, not its negation
5000 — so the claim (which covers the cited ipay_app `income_balances` /
`expense_balances`) fails as stated. -/
theorem c2_counterexample_ipay_no_flip :
    ipayIncomeBalances exampleRevTxs "" 3
        = [⟨"Revenue:Salary", -5000, ""⟩]
      ∧ aggregateBalances exampleRevTxs "" 3 "revenue" true
        = [("Revenue:Salary", -5000, "")]
      ∧ ((-5000 : Int) ≠ -(-5000 : Int)) := by
  refine ⟨by decide, by decide, by decide⟩

/-!  ## Properties of the Python string comparator -/

theorem charListLe_total : ∀ (as bs : List Char),
    charListLe as bs = true ∨ charListLe bs as = true
  | [], _ => Or.inl rfl
  | _ :: _, [] => Or.inr rfl
  | a :: as, b :: bs => by
    by_cases h : a = b
    · subst h
      rcases charListLe_total as bs with h1 | h1
      · exact Or.inl (by simp [charListLe, h1])
      · exact Or.inr (by simp [charListLe, h1])
    · rcases lt_or_gt_of_ne h with hlt | hgt
      · exact Or.inl (by simp [charListLe, h, hlt])
      · exact Or.inr (by
          have hne : ¬ b = a := fun e => h e.symm
          simp [charListLe, hne, hgt])

theorem charListLe_trans : ∀ (as bs cs : List Char),
    charListLe as bs = true → charListLe bs cs = true →
      charListLe as cs = true
  | [], _, _, _, _ => rfl
  | _ :: _, [], _, h1, _ => by simp [charListLe] at h1
  | _ :: _, _ :: _, [], _, h2 => by simp [charListLe] at h2
  | a :: as, b :: bs, c :: cs, h1, h2 => by
    by_cases hab : a = b
    · subst hab
      by_cases hac : a = c
      · subst hac
        have h1' : charListLe as bs = true := by simpa [charListLe] using h1
        have h2' : charListLe bs cs = true := by simpa [charListLe] using h2
        simp [charListLe, charListLe_trans as bs cs h1' h2']
      · have h2' : a < c := by simpa [charListLe, hac] using h2
        simp [charListLe, hac, h2']
    · have h1' : a < b := by simpa [charListLe, hab] using h1
      by_cases hbc : b = c
      · subst hbc
        simp [charListLe, hab, h1']
      · have h2' : b < c := by simpa [charListLe, hbc] using h2
        have hac : a < c := lt_trans h1' h2'
        simp [charListLe, ne_of_lt hac, hac]

theorem charListLe_ne_lt : ∀ (as bs : List Char),
    charListLe as bs = true → as ≠ bs → charListLt as bs = true
  | [], [], _, hne => absurd rfl hne
  | [], _ :: _, _, _ => rfl
  | _ :: _, [], h, _ => by simp [charListLe] at h
  | a :: as, b :: bs, h, hne => by
    by_cases hab : a = b
    · subst hab
      have h1 : charListLe as bs = true := by simpa [charListLe] using h
      have hne2 : as ≠ bs := fun e => hne (by rw [e])
      simp [charListLt, charListLe_ne_lt as bs h1 hne2]
    · have h1 : a < b := by simpa [charListLe, hab] using h
      simp [charListLt, hab, h1]

instance : IsTotal String pyStrLe :=
  ⟨fun a b => charListLe_total a.data b.data⟩

instance : IsTrans String pyStrLe :=
  ⟨fun _ _ _ h1 h2 => charListLe_trans _ _ _ h1 h2⟩

theorem pyStrLe_ne_lt (a b : String) (h : pyStrLe a b) (hne : a ≠ b) :
    pyStrLt a b :=
  charListLe_ne_lt _ _ h fun e => hne (congrArg String.mk e)

/-!  ## Lookup lemmas for the nested month/category table (C3) -/

theorem lookup_alUpd_ne {β : Type} (u : β → β) (d : β) :
    ∀ (l : List (String × β)) (k k' : String), k' ≠ k →
      (alUpd u d l k).lookup k' = l.lookup k'
  | [], k, k', h => by
    simp [alUpd, List.lookup, beq_eq_false_iff_ne.mpr h]
  | (k0, v0) :: rest, k, k', h => by
    by_cases h0 : k0 = k
    · subst h0
      simp [alUpd, List.lookup, beq_eq_false_iff_ne.mpr h]
    · simp only [alUpd, if_neg h0, List.lookup]
      by_cases h1 : k' = k0
      · subst h1
        simp
      · simp [beq_eq_false_iff_ne.mpr h1, lookup_alUpd_ne u d rest k k' h]

theorem alGet_alAdd (l : List (String × Int)) (k : String) (v : Int)
    (k' : String) :
    alGet (alAdd l k v) k' = alGet l k' + if k = k' then v else 0 := by
  by_cases h : k' = k
  · subst h
    show alGet (alUpd (· + v) 0 l k') k' = _
    unfold alGet
    rw [lookup_alUpd_self]
    simp
  · show alGet (alUpd (· + v) 0 l k) k' = _
    unfold alGet
    rw [lookup_alUpd_ne _ _ _ _ _ h]
    have hne : ¬ k = k' := fun e => h e.symm
    simp [hne]

theorem mcGet_mcAdd (mc : List (String × List (String × Int)))
    (m c : String) (v : Int) (m' c' : String) :
    mcGet (mcAdd mc m c v) m' c'
      = mcGet mc m' c' + if m = m' ∧ c = c' then v else 0 := by
  unfold mcGet mcAdd
  by_cases hm : m' = m
  · subst hm
    rw [lookup_alUpd_self]
    show alGet (alAdd ((mc.lookup m').getD []) c v) c' = _
    rw [alGet_alAdd]
    by_cases hc : c = c'
    · simp [hc]
    · simp [hc]
  · rw [lookup_alUpd_ne _ _ _ _ _ hm]
    have hcond : ¬ (m = m' ∧ c = c') := fun hand => hm hand.1.symm
    simp [hcond]

theorem mcGet_postFold (root m0 : String) :
    ∀ (ps : List PostingData) (mc : List (String × List (String × Int)))
      (m c : String),
      mcGet (ps.foldl (mcPostingStep root m0) mc) m c
        = mcGet mc m c
          + (if m0 = m then
              (ps.map fun p =>
                if isUnder root p.account ∧ level2Key p.account = c then
                  postingTotal p
                else 0).sum
            else 0)
  | [], mc, m, c => by simp
  | p :: ps, mc, m, c => by
    have ih := mcGet_postFold root m0 ps (mcPostingStep root m0 mc p) m c
    show mcGet (ps.foldl (mcPostingStep root m0) (mcPostingStep root m0 mc p)) m c
      = _
    rw [ih]
    unfold mcPostingStep
    by_cases hu : isUnder root p.account = true
    · rw [if_pos hu, mcGet_mcAdd]
      by_cases hm : m0 = m
      · by_cases hc : level2Key p.account = c
        · simp only [List.map_cons, List.sum_cons, if_pos hm,
            if_pos (And.intro hm hc)]
          simp [hu, hc]
          ring
        · have hcond : ¬ (m0 = m ∧ level2Key p.account = c) :=
            fun hand => hc hand.2
          simp only [List.map_cons, List.sum_cons, if_pos hm, if_neg hcond]
          simp [hc]
      · have hcond : ¬ (m0 = m ∧ level2Key p.account = c) :=
          fun hand => hm hand.1
        simp [hm, hcond]
    · rw [if_neg hu]
      by_cases hm : m0 = m
      · have hz : (if isUnder root p.account ∧ level2Key p.account = c then
            postingTotal p else 0) = 0 := by
          simp [hu]
        simp [hm, hz]
      · simp [hm]

theorem monthCatSum_cons (root : String) (tx : TransactionData)
    (txs : List TransactionData) (m c : String) :
    monthCatSum root (tx :: txs) m c
      = (if 7 ≤ tx.date.length ∧ pySlice tx.date 0 7 = m then
          (tx.postings.map fun p =>
            if isUnder root p.account ∧ level2Key p.account = c then
              postingTotal p
            else 0).sum
        else 0) + monthCatSum root txs m c := by
  simp [monthCatSum]

theorem mcGet_build (root : String) :
    ∀ (txs : List TransactionData)
      (mc0 : List (String × List (String × Int))) (m c : String),
      mcGet (txs.foldl (mcTxnStep root) mc0) m c
        = mcGet mc0 m c + monthCatSum root txs m c
  | [], mc0, m, c => by simp [monthCatSum]
  | tx :: txs, mc0, m, c => by
    have ih := mcGet_build root txs (mcTxnStep root mc0 tx) m c
    show mcGet (txs.foldl (mcTxnStep root) (mcTxnStep root mc0 tx)) m c = _
    rw [ih, monthCatSum_cons]
    have hstep : mcGet (mcTxnStep root mc0 tx) m c
        = mcGet mc0 m c
          + (if 7 ≤ tx.date.length ∧ pySlice tx.date 0 7 = m then
              (tx.postings.map fun p =>
                if isUnder root p.account ∧ level2Key p.account = c then
                  postingTotal p
                else 0).sum
            else 0) := by
      unfold mcTxnStep
      by_cases hd : tx.date.length < 7
      · have hcond : ¬ (7 ≤ tx.date.length ∧ pySlice tx.date 0 7 = m) :=
          fun hand => absurd hand.1 (by omega)
        simp [hd, hcond]
      · rw [if_neg hd, mcGet_postFold root (pySlice tx.date 0 7) tx.postings mc0 m c]
        by_cases hs : pySlice tx.date 0 7 = m
        · simp [hs, Nat.le_of_not_lt hd]
        · have hcond : ¬ (7 ≤ tx.date.length ∧ pySlice tx.date 0 7 = m) :=
            fun hand => hs hand.2
          simp [hs, hcond]
    rw [hstep]
    ring

theorem mem_keys_alUpd {β : Type} (u : β → β) (d : β)
    (l : List (String × β)) (k k' : String) :
    k' ∈ keysOf (alUpd u d l k) ↔ k' ∈ keysOf l ∨ k' = k := by
  rw [alUpd_keys]
  by_cases h : k ∈ keysOf l
  · rw [if_pos h]
    constructor
    · exact Or.inl
    · rintro (h1 | rfl)
      · exact h1
      · exact h
  · rw [if_neg h]
    simp [List.mem_append]

theorem mem_keys_postFold (root m0 : String) :
    ∀ (ps : List PostingData) (mc : List (String × List (String × Int)))
      (m : String),
      m ∈ keysOf (ps.foldl (mcPostingStep root m0) mc)
        ↔ m ∈ keysOf mc
          ∨ (m0 = m ∧ ∃ p ∈ ps, isUnder root p.account = true)
  | [], mc, m => by simp
  | p :: ps, mc, m => by
    have ih := mem_keys_postFold root m0 ps (mcPostingStep root m0 mc p) m
    show m ∈ keysOf (ps.foldl (mcPostingStep root m0) (mcPostingStep root m0 mc p))
      ↔ _
    rw [ih]
    unfold mcPostingStep
    by_cases hu : isUnder root p.account = true
    · rw [if_pos hu]
      unfold mcAdd
      rw [mem_keys_alUpd]
      constructor
      · rintro ((hmc | he) | ⟨hm0, q, hq, hq2⟩)
        · exact Or.inl hmc
        · exact Or.inr ⟨he.symm, p, List.mem_cons_self p ps, hu⟩
        · exact Or.inr ⟨hm0, q, List.mem_cons_of_mem p hq, hq2⟩
      · rintro (hmc | ⟨hm0, q, hq, hq2⟩)
        · exact Or.inl (Or.inl hmc)
        · rcases List.mem_cons.mp hq with rfl | hq1
          · exact Or.inl (Or.inr hm0.symm)
          · exact Or.inr ⟨hm0, q, hq1, hq2⟩
    · rw [if_neg hu]
      constructor
      · rintro (hmc | ⟨hm0, q, hq, hq2⟩)
        · exact Or.inl hmc
        · exact Or.inr ⟨hm0, q, List.mem_cons_of_mem p hq, hq2⟩
      · rintro (hmc | ⟨hm0, q, hq, hq2⟩)
        · exact Or.inl hmc
        · rcases List.mem_cons.mp hq with rfl | hq1
          · exact absurd hq2 hu
          · exact Or.inr ⟨hm0, q, hq1, hq2⟩

theorem mem_keys_build (root : String) :
    ∀ (txs : List TransactionData)
      (mc0 : List (String × List (String × Int))) (m : String),
      m ∈ keysOf (txs.foldl (mcTxnStep root) mc0)
        ↔ m ∈ keysOf mc0
          ∨ ∃ tx ∈ txs, 7 ≤ tx.date.length ∧ pySlice tx.date 0 7 = m
              ∧ ∃ p ∈ tx.postings, isUnder root p.account = true
  | [], mc0, m => by simp
  | tx :: txs, mc0, m => by
    have ih := mem_keys_build root txs (mcTxnStep root mc0 tx) m
    show m ∈ keysOf (txs.foldl (mcTxnStep root) (mcTxnStep root mc0 tx)) ↔ _
    rw [ih]
    unfold mcTxnStep
    by_cases hd : tx.date.length < 7
    · rw [if_pos hd]
      constructor
      · rintro (h | ⟨t, ht, h7, hs, hp⟩)
        · exact Or.inl h
        · exact Or.inr ⟨t, List.mem_cons_of_mem tx ht, h7, hs, hp⟩
      · rintro (h | ⟨t, ht, h7, hs, hp⟩)
        · exact Or.inl h
        · rcases List.mem_cons.mp ht with rfl | ht1
          · exact absurd h7 (by omega)
          · exact Or.inr ⟨t, ht1, h7, hs, hp⟩
    · rw [if_neg hd]
      rw [mem_keys_postFold root (pySlice tx.date 0 7) tx.postings mc0 m]
      constructor
      · rintro ((h | ⟨hs, q, hq, hq2⟩) | ⟨t, ht, h7, hs, hp⟩)
        · exact Or.inl h
        · exact Or.inr ⟨tx, List.mem_cons_self tx txs, Nat.le_of_not_lt hd, hs,
            q, hq, hq2⟩
        · exact Or.inr ⟨t, List.mem_cons_of_mem tx ht, h7, hs, hp⟩
      · rintro (h | ⟨t, ht, h7, hs, hp⟩)
        · exact Or.inl (Or.inl h)
        · rcases List.mem_cons.mp ht with rfl | ht1
          · exact Or.inl (Or.inr ⟨hs, hp⟩)
          · exact Or.inr ⟨t, ht1, h7, hs, hp⟩

theorem build_keys_nodup (root : String) (txs : List TransactionData) :
    (keysOf (buildMonthCat root txs)).Nodup := by
  unfold buildMonthCat
  apply foldl_inv (fun mc : List (String × List (String × Int)) =>
    (keysOf mc).Nodup)
  · intro mc tx h
    unfold mcTxnStep
    by_cases hd : tx.date.length < 7
    · rw [if_pos hd]; exact h
    · rw [if_neg hd]
      apply foldl_inv (fun mc : List (String × List (String × Int)) =>
        (keysOf mc).Nodup)
      · intro mc2 p h2
        unfold mcPostingStep
        by_cases hu : isUnder root p.account = true
        · rw [if_pos hu]
          exact nodup_alUpd _ _ _ _ h2
        · rw [if_neg hu]; exact h2
      · exact h
  · simp [keysOf]

/-!  ## The monthly stacked series (C3) -/

theorem monthlyStacked_months (root : String) (txs : List TransactionData) :
    (monthlyStacked root txs).map StackedRow.month
      = List.insertionSort pyStrLe (keysOf (buildMonthCat root txs)) := by
  show ((List.insertionSort pyStrLe
    ((buildMonthCat root txs).map Prod.fst)).map _).map StackedRow.month = _
  rw [List.map_map]
  exact List.map_id _

/-- C3 (amended): the monthly stacked series has exactly one row per distinct
month observed among transactions that have a date of at least 7 characters
AND at least one posting under the root; rows are sorted strictly ascending
by month string; every row carries one entry per category observed anywhere
in the transaction set, and every entry is the non-negative absolute value
of the signed (month, category) sum — in particular 0 for pairs with no
postings. -/
theorem c3_amended_monthly_stacked (root : String) (txs : List TransactionData) :
    ((monthlyStacked root txs).map StackedRow.month).Pairwise pyStrLt
      ∧ (∀ m : String,
          m ∈ (monthlyStacked root txs).map StackedRow.month
            ↔ ∃ tx ∈ txs, 7 ≤ tx.date.length ∧ pySlice tx.date 0 7 = m
                ∧ ∃ p ∈ tx.postings, isUnder root p.account = true)
      ∧ (∀ row ∈ monthlyStacked root txs,
          row.cells.map Prod.fst = level2Categories root txs)
      ∧ (∀ row ∈ monthlyStacked root txs, ∀ ce ∈ row.cells,
          0 ≤ ce.2 ∧ ce.2 = |monthCatSum root txs row.month ce.1|) := by
  have hkeysnd := build_keys_nodup root txs
  refine ⟨?_, ?_, ?_, ?_⟩
  · rw [monthlyStacked_months]
    have h1 : (List.insertionSort pyStrLe
        (keysOf (buildMonthCat root txs))).Pairwise pyStrLe :=
      List.sorted_insertionSort pyStrLe (keysOf (buildMonthCat root txs))
    have h2 : (List.insertionSort pyStrLe
        (keysOf (buildMonthCat root txs))).Nodup :=
      hkeysnd.perm (List.perm_insertionSort pyStrLe _).symm
    exact (h1.and h2).imp fun hab => pyStrLe_ne_lt _ _ hab.1 hab.2
  · intro m
    rw [monthlyStacked_months]
    rw [List.mem_insertionSort pyStrLe]
    have := mem_keys_build root txs [] m
    simpa [keysOf] using this
  · intro row hrow
    rcases List.mem_map.mp hrow with ⟨mth, _, rfl⟩
    show ((level2Categories root txs).map _).map Prod.fst
      = level2Categories root txs
    rw [List.map_map]
    exact List.map_id _
  · intro row hrow ce hce
    rcases List.mem_map.mp hrow with ⟨mth, _, rfl⟩
    rcases List.mem_map.mp hce with ⟨c, _, rfl⟩
    have hv : mcGet (buildMonthCat root txs) mth c
        = monthCatSum root txs mth c := by
      have := mcGet_build root txs [] mth c
      simpa [mcGet, alGet] using this
    show 0 ≤ (if mcGet (buildMonthCat root txs) mth c < 0 then
        -mcGet (buildMonthCat root txs) mth c
      else mcGet (buildMonthCat root txs) mth c)
      ∧ (if mcGet (buildMonthCat root txs) mth c < 0 then
          -mcGet (buildMonthCat root txs) mth c
        else mcGet (buildMonthCat root txs) mth c)
        = |monthCatSum root txs mth c|
    rw [hv]
    rcases lt_or_ge (monthCatSum root txs mth c) 0 with hlt | hge
    · rw [if_pos hlt, abs_of_neg hlt]
      omega
    · rw [if_neg (not_lt.mpr hge), abs_of_nonneg hge]
      omega

theorem c3_amended_monthly_stacked_witness :
    (⟨"2025-01", [("Expense:Food", 50)]⟩ : StackedRow)
        ∈ monthlyStacked "expense" exampleSeriesTxs
      ∧ (⟨"2025-01", [("Expense:Food", 50)]⟩ : StackedRow).cells.map Prod.fst
          = level2Categories "expense" exampleSeriesTxs
      ∧ 0 ≤ (50 : Int)
      ∧ (50 : Int)
        = |monthCatSum "expense" exampleSeriesTxs "2025-01" "Expense:Food"| :=
  ⟨by decide,
   (c3_amended_monthly_stacked "expense" exampleSeriesTxs).2.2.1
     ⟨"2025-01", [("Expense:Food", 50)]⟩ (by decide),
   ((c3_amended_monthly_stacked "expense" exampleSeriesTxs).2.2.2
     ⟨"2025-01", [("Expense:Food", 50)]⟩ (by decide)
     ("Expense:Food", 50) (by decide)).1,
   ((c3_amended_monthly_stacked "expense" exampleSeriesTxs).2.2.2
     ⟨"2025-01", [("Expense:Food", 50)]⟩ (by decide)
     ("Expense:Food", 50) (by decide)).2⟩

/-- C3 counterexample: a transaction whose 10-character date makes its month
"observed among transactions whose date has at least 7 characters", but
which has no expense posting, produces NO row — the claim's "exactly one row
per distinct YYYY-MM month observed" fails as stated. -/
theorem c3_counterexample_month_without_posting :
    monthlyExpenseStacked exampleNoExpenseTxs = []
      ∧ (exampleNoExpenseTxs.filter
          (fun t => (7 ≤ t.date.length : Bool))).map (fun t => pySlice t.date 0 7)
        = ["2025-03"] := by
  exact ⟨by decide, by decide⟩

end HledgerApp
